import Mathlib

/-!
Shallow embedding of the go-togif converter (pkg/converter/converter.go,
function ConvertPNGsToGIF) together with proofs about the palette
construction, frame requantization and progress reporting pipeline.

Modelling conventions:
* a decoded PNG image is a `Frame`: explicit width/height plus a pixel
  function; pixel colors are exact 8-bit RGBA channel tuples;
* file I/O is abstracted away: the input file list is a list of
  `(name, decoded frame)` pairs, and the result records how many file
  reads the pipeline performed, whether the progress UI was started and
  whether the output file was created;
* `xdraw.CatmullRom.Scale` is third-party resampling code; it is kept
  abstract as a `ScaleFn` parameter giving the pixels of the resized
  image (the Go code always allocates the destination with the reference
  bounds, so the dimensions of the resized frame do not depend on it);
* Go map iteration order (`for c := range colorMap`, `for c, count :=
  range colorFreq`) is not deterministic, and `sort.Slice` is not a
  stable sort.  Both nondeterministic choices are made explicit
  parameters (`keyOrder`, `sortedColors`), constrained by the validity
  predicates `EnumValid` and `SortValid` which say exactly what Go
  guarantees about them: `keyOrder` enumerates the key set of `colorMap`
  without duplicates, and `sortedColors` is a duplicate-free enumeration
  of the `colorFreq` entries ordered by nonincreasing count.
-/

namespace GoToGif

/-- An exact RGBA color value, one Nat per 8-bit channel
(`color.Color` as sampled by `img.At(x, y)`). -/
structure Color where
  r : Nat
  g : Nat
  b : Nat
  a : Nat
deriving DecidableEq, Repr

/-- A decoded true-color frame: explicit dimensions plus a pixel function. -/
structure Frame where
  width : Nat
  height : Nat
  pix : Nat → Nat → Color

/-- The pixels of a frame in row-major order (y outer, x inner), exactly the
iteration order of the sampling loops in ConvertPNGsToGIF. -/
def Frame.pixelList (f : Frame) : List Color :=
  (List.range f.height).flatMap (fun y => (List.range f.width).map (fun x => f.pix x y))

/-- ui.ProgressMsg. -/
structure ProgressMsg where
  currentFile : String
  processed : Nat
  total : Nat
  outputFile : String
deriving DecidableEq, Repr

/-- image.Paletted: a grid of palette indices (row-major) plus the palette. -/
structure Paletted where
  width : Nat
  height : Nat
  pix : List Nat
  palette : List Color
deriving DecidableEq, Repr

/-- gif.GIF: the frames and the per-frame delay values (100ths of a second). -/
structure GIF where
  image : List Paletted
  delay : List Int
deriving DecidableEq, Repr

/-- The observable outcome of one run of ConvertPNGsToGIF: whether the
progress UI was started, the progress events sent on the channel in order,
how many input file opens were performed, whether os.Create was reached for
the output path, and the returned error or encoded document. -/
structure ConvResult where
  uiStarted : Bool
  events : List ProgressMsg
  filesRead : Nat
  outputCreated : Bool
  result : Except String GIF

instance : DecidableEq (Except String GIF) := fun a b =>
  match a, b with
  | .error x, .error y =>
    if h : x = y then isTrue (by rw [h]) else isFalse (by simp [h])
  | .error _, .ok _ => isFalse (by simp)
  | .ok _, .error _ => isFalse (by simp)
  | .ok x, .ok y =>
    if h : x = y then isTrue (by rw [h]) else isFalse (by simp [h])

instance : DecidableEq ConvResult := fun a b => by
  cases a; cases b
  exact decidable_of_iff _ (iff_of_eq (ConvResult.mk.injEq _ _ _ _ _ _ _ _ _ _)).symm

/-- The effect of `xdraw.CatmullRom.Scale` into a freshly allocated
destination: given the destination width and height and the source frame,
the color of the destination pixel at (x, y). -/
abbrev ScaleFn := Nat → Nat → Frame → Nat → Nat → Color

/-- Lines 68-73 / 159-164: resize the image iff its dimensions differ from
the first image's; the destination is allocated with the reference bounds. -/
def normalizeFrame (scale : ScaleFn) (refW refH : Nat) (f : Frame) : Frame :=
  if f.width = refW ∧ f.height = refH then f
  else { width := refW, height := refH, pix := scale refW refH f }

/-- Go image/draw sqDiff on 16-bit channel values:
`d := x - y; return uint32(d*d) >> 2` (the product cannot reach 2^32,
so this is exactly the squared difference divided by 4). -/
def sqDiff (x y : Nat) : Nat := (((x : Int) - (y : Int)) ^ 2).toNat / 4

/-- Go color.RGBA() widens an 8-bit channel to 16 bits: v | v<<8 = 257*v. -/
def ch16 (v : Nat) : Nat := 257 * v

/-- The squared color distance used by image/draw's drawPaletted. -/
def dist2 (p c : Color) : Nat :=
  sqDiff (ch16 p.r) (ch16 c.r) + sqDiff (ch16 p.g) (ch16 c.g) +
    sqDiff (ch16 p.b) (ch16 c.b) + sqDiff (ch16 p.a) (ch16 c.a)

/-- The palette scan of drawPaletted: first index whose distance strictly
improves on the best so far (`bestIndex, bestSum := 0, uint32(1<<32-1)`). -/
def palIndexAux (c : Color) : List Color → Nat → Nat → Nat → Nat
  | [], _, best, _ => best
  | p :: rest, i, best, bestSum =>
    if dist2 p c < bestSum then palIndexAux c rest (i + 1) i (dist2 p c)
    else palIndexAux c rest (i + 1) best bestSum

/-- The palette index assigned to color `c` by
`xdraw.Draw(paletted, …, xdraw.Src)` (stdlib drawPaletted). -/
def palIndex (pal : List Color) (c : Color) : Nat :=
  palIndexAux c pal 0 0 4294967295

/-- Lines 166-170: image.NewPaletted over the (already normalized) image's
bounds, then xdraw.Draw with Src, which maps every pixel to `palIndex`. -/
def quantizeFrame (pal : List Color) (f : Frame) : Paletted :=
  { width := f.width, height := f.height,
    pix := f.pixelList.map (palIndex pal), palette := pal }

/-- The reference rectangle: the first frame's dimensions (line 63-66). -/
def refDims : List (String × Frame) → Nat × Nat
  | [] => (0, 0)
  | (_, f) :: _ => (f.width, f.height)

/-- All pixels sampled during the first pass (lines 75-81): pixels of the
frames after normalization to the reference dimensions, in input order. -/
def sampledPixels (scale : ScaleFn) (inputs : List (String × Frame)) : List Color :=
  (inputs.map (fun p =>
    (normalizeFrame scale (refDims inputs).1 (refDims inputs).2 p.2).pixelList)).flatten

/-- The key set of `colorMap` (lines 38-39, 79): the distinct sampled colors,
listed here canonically in first-occurrence order.  NOTE: the real map is
keyed by color.Color interface values (dynamic type + value); this
tuple-valued view quotients the dynamic-type component away, which is the
right granularity for the palette-content and determinism claims but hides
that tuple-equal keys of different dynamic types stay distinct — see the
GoColor development below for that refinement. -/
def observedColors (scale : ScaleFn) (inputs : List (String × Frame)) : List Color :=
  (sampledPixels scale inputs).dedup

/-- All pixels visited by the frequency-counting pass (lines 101-120).  That
pass re-decodes every file and iterates its bounds WITHOUT resizing, so these
are the pixels of the original frames. -/
def rawPixels (inputs : List (String × Frame)) : List Color :=
  (inputs.map (fun p => p.2.pixelList)).flatten

/-- Value of colorFreq at c after the counting pass (line 117). -/
def colorFreq (inputs : List (String × Frame)) (c : Color) : Nat :=
  (rawPixels inputs).count c

/-- What Go guarantees about `for c := range colorMap` (lines 84-87): the
iteration visits exactly the keys of the map, each once, in an unspecified
order. -/
def EnumValid (scale : ScaleFn) (inputs : List (String × Frame))
    (keyOrder : List Color) : Prop :=
  keyOrder.Nodup ∧ ∀ c, c ∈ keyOrder ↔ c ∈ observedColors scale inputs

/-- What Go guarantees about `sortedColors` after lines 122-133: it holds
every `colorFreq` entry exactly once (map iteration at line 128), and
`sort.Slice` with comparator `count i > count j` leaves it ordered by
nonincreasing count — nothing more, since `sort.Slice` is not stable and the
pre-sort order came from map iteration. -/
def SortValid (inputs : List (String × Frame))
    (sortedColors : List (Color × Nat)) : Prop :=
  (sortedColors.map Prod.fst).Nodup ∧
    (∀ p : Color × Nat,
      p ∈ sortedColors ↔ p.1 ∈ rawPixels inputs ∧ p.2 = colorFreq inputs p.1) ∧
    sortedColors.Pairwise (fun a b => b.2 ≤ a.2)

/-- Lines 89-96: the black/white fallback used when no colors were sampled. -/
def fallbackPalette : List Color := [⟨0, 0, 0, 255⟩, ⟨255, 255, 255, 255⟩]

/-- Lines 84-96: the palette before the size check — the enumeration of
colorMap, or the fallback if nothing was sampled. -/
def palette0 (keyOrder : List Color) : List Color :=
  if keyOrder.isEmpty then fallbackPalette else keyOrder

/-- Lines 84-140: the final palette.  `keyOrder` is the map-iteration
enumeration of colorMap, `sortedColors` the sorted frequency list (used only
when more than 256 colors were sampled). -/
def builtPalette (keyOrder : List Color) (sortedColors : List (Color × Nat)) :
    List Color :=
  if 256 < (palette0 keyOrder).length then (sortedColors.map Prod.fst).take 256
  else palette0 keyOrder

/-- ConvertPNGsToGIF (converter.go lines 20-211).  `scale` abstracts the
CatmullRom resampler, `keyOrder`/`sortedColors` the two map-iteration
choices; `debug` only toggles a print and is otherwise unused. -/
def ConvertPNGsToGIF (scale : ScaleFn) (keyOrder : List Color)
    (sortedColors : List (Color × Nat)) (inputFiles : List (String × Frame))
    (outputFile : String) (delay : Int) (_debug : Bool) : ConvResult :=
  match inputFiles with
  | [] => ⟨false, [], 0, false, Except.error "no input files specified"⟩
  | (_, f0) :: _ =>
    if delay < 0 then ⟨false, [], 0, false, Except.error "delay must be non-negative"⟩
    else
      let n := inputFiles.length
      let events1 := inputFiles.enum.map (fun p =>
        ProgressMsg.mk p.2.1 p.1 n "")
      let palette := builtPalette keyOrder sortedColors
      let freqReads := if 256 < (palette0 keyOrder).length then n else 0
      let images := inputFiles.map (fun p =>
        quantizeFrame palette (normalizeFrame scale f0.width f0.height p.2))
      let delays := List.replicate images.length (delay.tdiv 10)
      ⟨true,
        events1 ++ [ProgressMsg.mk "Creating output GIF" n n outputFile],
        n + freqReads + n, true, Except.ok ⟨images, delays⟩⟩

/-! ## Basic lemmas about the embedded operations -/

theorem sqDiff_self (x : Nat) : sqDiff x x = 0 := by simp [sqDiff]

theorem dist2_self (c : Color) : dist2 c c = 0 := by simp [dist2, sqDiff_self]

theorem sqDiff_ch16_eq_zero {x y : Nat} (h : sqDiff (ch16 x) (ch16 y) = 0) :
    x = y := by
  by_contra hne
  have he : ((x : Int) - y) ≠ 0 := sub_ne_zero.mpr (by exact_mod_cast hne)
  have habs : (1 : Int) ≤ |(x : Int) - y| := Int.one_le_abs he
  have h1 : (1 : Int) ≤ ((x : Int) - y) ^ 2 := by nlinarith [sq_abs ((x : Int) - y)]
  have h2 : (66049 : Int) ≤ (257 * ((x : Int) - y)) ^ 2 := by nlinarith
  have hcast : ((257 * x : Nat) : Int) - ((257 * y : Nat) : Int) =
      257 * ((x : Int) - y) := by push_cast; ring
  have h3 : sqDiff (ch16 x) (ch16 y) = ((257 * ((x : Int) - y)) ^ 2).toNat / 4 := by
    unfold sqDiff ch16
    rw [hcast]
  rw [h3] at h
  have h4 : (66049 : Nat) ≤ ((257 * ((x : Int) - y)) ^ 2).toNat := by
    have := Int.toNat_le_toNat h2
    simpa using this
  omega

theorem dist2_eq_zero {p c : Color} (h : dist2 p c = 0) : p = c := by
  unfold dist2 at h
  have hr := sqDiff_ch16_eq_zero (x := p.r) (y := c.r) (by omega)
  have hg := sqDiff_ch16_eq_zero (x := p.g) (y := c.g) (by omega)
  have hb := sqDiff_ch16_eq_zero (x := p.b) (y := c.b) (by omega)
  have ha := sqDiff_ch16_eq_zero (x := p.a) (y := c.a) (by omega)
  cases p; cases c; simp_all

theorem palIndexAux_zero (c : Color) :
    ∀ (l : List Color) (i best : Nat), palIndexAux c l i best 0 = best := by
  intro l
  induction l with
  | nil => intro i best; rfl
  | cons p rest ih =>
    intro i best
    simp only [palIndexAux]
    rw [if_neg (Nat.not_lt_zero _)]
    exact ih _ _

theorem palIndexAux_exact (c : Color) :
    ∀ (l : List Color) (i best bestSum : Nat), 0 < bestSum →
      (∃ p ∈ l, dist2 p c = 0) →
      ∃ k p, l.get? k = some p ∧ palIndexAux c l i best bestSum = i + k ∧
        dist2 p c = 0 := by
  intro l
  induction l with
  | nil =>
    intro i best bs hbs hex
    obtain ⟨p, hp, _⟩ := hex
    exact absurd hp (List.not_mem_nil p)
  | cons q rest ih =>
    intro i best bs hbs hex
    by_cases hq : dist2 q c = 0
    · refine ⟨0, q, rfl, ?_, hq⟩
      simp only [palIndexAux]
      rw [if_pos (by omega)]
      rw [hq, palIndexAux_zero]
      omega
    · have hex' : ∃ p ∈ rest, dist2 p c = 0 := by
        obtain ⟨p, hp, hp0⟩ := hex
        rcases List.mem_cons.mp hp with hpq | hpr
        · exact absurd (hpq ▸ hp0) hq
        · exact ⟨p, hpr, hp0⟩
      simp only [palIndexAux]
      by_cases hlt : dist2 q c < bs
      · rw [if_pos hlt]
        obtain ⟨k, p, hget, hres, hp0⟩ :=
          ih (i + 1) i (dist2 q c) (Nat.pos_of_ne_zero hq) hex'
        exact ⟨k + 1, p, by simpa using hget, by rw [hres]; omega, hp0⟩
      · rw [if_neg hlt]
        obtain ⟨k, p, hget, hres, hp0⟩ := ih (i + 1) best bs hbs hex'
        exact ⟨k + 1, p, by simpa using hget, by rw [hres]; omega, hp0⟩

/-- Exact-match preference of drawPaletted: a color present in the palette is
mapped to an index that holds exactly that color. -/
theorem palIndex_getEq {pal : List Color} {c : Color} (h : c ∈ pal) :
    pal.get? (palIndex pal c) = some c := by
  obtain ⟨k, p, hget, hres, hp0⟩ :=
    palIndexAux_exact c pal 0 0 4294967295 (by omega) ⟨c, h, dist2_self c⟩
  have hk : palIndex pal c = k := by simpa [palIndex] using hres
  rw [hk, hget, dist2_eq_zero hp0]

theorem normalizeFrame_width (scale : ScaleFn) (refW refH : Nat) (f : Frame) :
    (normalizeFrame scale refW refH f).width = refW := by
  unfold normalizeFrame
  split
  · next h => exact h.1
  · rfl

theorem normalizeFrame_height (scale : ScaleFn) (refW refH : Nat) (f : Frame) :
    (normalizeFrame scale refW refH f).height = refH := by
  unfold normalizeFrame
  split
  · next h => exact h.2
  · rfl

theorem normalizeFrame_of_dims {refW refH : Nat} {f : Frame} (scale : ScaleFn)
    (h1 : f.width = refW) (h2 : f.height = refH) :
    normalizeFrame scale refW refH f = f :=
  if_pos ⟨h1, h2⟩

theorem EnumValid.perm_observed {scale : ScaleFn} {inputs : List (String × Frame)}
    {keyOrder : List Color} (h : EnumValid scale inputs keyOrder) :
    keyOrder.Perm (observedColors scale inputs) :=
  (List.perm_ext_iff_of_nodup h.1 (List.nodup_dedup _)).mpr h.2

theorem EnumValid.length_eq {scale : ScaleFn} {inputs : List (String × Frame)}
    {keyOrder : List Color} (h : EnumValid scale inputs keyOrder) :
    keyOrder.length = (observedColors scale inputs).length :=
  h.perm_observed.length_eq

theorem palette0_of_ne_nil {keyOrder : List Color} (hne : keyOrder ≠ []) :
    palette0 keyOrder = keyOrder := by
  cases keyOrder with
  | nil => exact absurd rfl hne
  | cons a t => rfl

theorem builtPalette_small {keyOrder : List Color} (s : List (Color × Nat))
    (hne : keyOrder ≠ []) (hle : keyOrder.length ≤ 256) :
    builtPalette keyOrder s = keyOrder := by
  unfold builtPalette
  rw [palette0_of_ne_nil hne, if_neg (by omega)]

theorem builtPalette_large {keyOrder : List Color} (s : List (Color × Nat))
    (hgt : 256 < keyOrder.length) :
    builtPalette keyOrder s = (s.map Prod.fst).take 256 := by
  have hne : keyOrder ≠ [] := by
    intro h
    rw [h] at hgt
    simp at hgt
  unfold builtPalette
  rw [palette0_of_ne_nil hne, if_pos (by omega)]

/-! ## Concrete inputs used by witnesses and counterexamples -/

/-- A trivial (but legitimate) resampler: every resized pixel is black.
The pipeline's contract never depends on which colors the resampler
produces, only on the dimensions of the resized frame. -/
def constScale : ScaleFn := fun _ _ _ _ _ => ⟨0, 0, 0, 255⟩

def wColor : Color := ⟨1, 2, 3, 255⟩

def wFrame : Frame := ⟨1, 1, fun _ _ => wColor⟩

def wInputs : List (String × Frame) := [("a.png", wFrame)]

def wKey : List Color := [wColor]

def wSorted : List (Color × Nat) := [(wColor, 1)]

/-- SortValid holds for the canonical enumeration `(c, 1)` over a
duplicate-free pixel list: every count is 1. -/
theorem sortValid_of_nodup_raw {inputs : List (String × Frame)} {l : List Color}
    (hraw : rawPixels inputs = l) (hnd : l.Nodup) :
    SortValid inputs (l.map (fun c => (c, 1))) := by
  subst hraw
  refine ⟨?_, ?_, ?_⟩
  · rw [List.map_map]
    exact List.Nodup.map (fun a b h => h) hnd
  · intro p
    constructor
    · intro hp
      obtain ⟨c, hc, hpc⟩ := List.mem_map.mp hp
      subst hpc
      exact ⟨hc, (List.count_eq_one_of_mem hnd hc).symm⟩
    · rintro ⟨hmem, hcnt⟩
      have h1 : p.2 = 1 := by
        rw [hcnt]
        exact List.count_eq_one_of_mem hnd hmem
      have : p = (p.1, 1) := by
        cases p
        simp_all
      rw [this]
      exact List.mem_map.mpr ⟨p.1, hmem, rfl⟩
  · rw [List.pairwise_map]
    exact List.pairwise_of_forall (fun a b => le_refl 1)

theorem wObs : observedColors constScale wInputs = [wColor] := by decide

theorem wEnumValid : EnumValid constScale wInputs wKey :=
  ⟨by decide, fun c => by rw [wObs]; exact Iff.rfl⟩

theorem wSortValid : SortValid wInputs wSorted :=
  sortValid_of_nodup_raw (l := [wColor]) (by decide) (by decide)

def dA : Color := ⟨0, 0, 0, 255⟩

def dB : Color := ⟨255, 255, 255, 255⟩

def dFrame : Frame := ⟨2, 1, fun x _ => if x = 0 then dA else dB⟩

def dInputs : List (String × Frame) := [("a.png", dFrame)]

def dKey1 : List Color := [dA, dB]

def dKey2 : List Color := [dB, dA]

def dSorted : List (Color × Nat) := [(dA, 1), (dB, 1)]

theorem dObs : observedColors constScale dInputs = [dA, dB] := by decide

theorem dEnumValid1 : EnumValid constScale dInputs dKey1 :=
  ⟨by decide, fun c => by rw [dObs]; exact Iff.rfl⟩

theorem dEnumValid2 : EnumValid constScale dInputs dKey2 :=
  ⟨by decide, fun c => by
    rw [dObs]
    show c ∈ [dB, dA] ↔ c ∈ [dA, dB]
    simp only [List.mem_cons, List.mem_singleton, List.not_mem_nil]
    tauto⟩

theorem dSortValid : SortValid dInputs dSorted :=
  sortValid_of_nodup_raw (l := [dA, dB]) (by decide) (by decide)

/-- When every input frame already has the reference dimensions, the
normalization pass is the identity, so the sampled pixels coincide with the
original frames' pixels. -/
theorem sampledPixels_of_matching {scale : ScaleFn} {inputs : List (String × Frame)}
    (h : ∀ p ∈ inputs, p.2.width = (refDims inputs).1 ∧
      p.2.height = (refDims inputs).2) :
    sampledPixels scale inputs = rawPixels inputs := by
  unfold sampledPixels rawPixels
  congr 1
  apply List.map_congr_left
  intro p hp
  rw [normalizeFrame_of_dims scale (h p hp).1 (h p hp).2]

/-- Reversing a valid sorted frequency list is again valid when all counts
are equal (any order is nonincreasing then). -/
theorem sortValid_reverse {inputs : List (String × Frame)}
    {s : List (Color × Nat)} (h : SortValid inputs s)
    (hconst : ∀ p ∈ s, ∀ q ∈ s, q.2 ≤ p.2) :
    SortValid inputs s.reverse := by
  obtain ⟨h1, h2, _⟩ := h
  refine ⟨?_, ?_, ?_⟩
  · rw [List.map_reverse]
    exact List.nodup_reverse.mpr h1
  · intro p
    rw [List.mem_reverse]
    exact h2 p
  · exact List.pairwise_reverse.mpr
      (List.pairwise_of_forall_mem_list (fun a ha b hb => hconst b hb a ha))

def eA : Color := ⟨255, 0, 0, 255⟩

def eB : Color := ⟨0, 255, 0, 255⟩

def eFrame0 : Frame := ⟨1, 1, fun _ _ => eA⟩

/-- A second frame whose dimensions differ from the first frame's. -/
def eFrame1 : Frame := ⟨2, 1, fun _ _ => eB⟩

def eInputs : List (String × Frame) := [("a.png", eFrame0), ("b.png", eFrame1)]

def gFrame1 : Frame := ⟨1, 1, fun _ _ => eB⟩

def gInputs : List (String × Frame) := [("a.png", eFrame0), ("b.png", gFrame1)]

def gKey : List Color := [eA, eB]

def gSorted : List (Color × Nat) := gKey.map (fun c => (c, 1))

theorem gObs : observedColors constScale gInputs = [eA, eB] := by decide

theorem gEnumValid : EnumValid constScale gInputs gKey :=
  ⟨by decide, fun c => by rw [gObs]; exact Iff.rfl⟩

theorem gRaw : rawPixels gInputs = gKey := by decide

theorem gSortValid : SortValid gInputs gSorted :=
  sortValid_of_nodup_raw gRaw (by decide)

/-- Pairwise-distinct colors indexed by 0..256. -/
def mkColor (x : Nat) : Color := ⟨x % 256, x / 256, 0, 255⟩

theorem mkColor_injective : Function.Injective mkColor := by
  intro x y h
  simp only [mkColor, Color.mk.injEq] at h
  omega

/-- A single 257×1 frame showing 257 distinct colors. -/
def cFrame : Frame := ⟨257, 1, fun x _ => mkColor x⟩

def cInputs : List (String × Frame) := [("f.png", cFrame)]

def cKey : List Color := (List.range 257).map mkColor

/-- One valid outcome of map iteration + sort.Slice: ascending color index
(all counts are 1, so any order is sorted by nonincreasing count). -/
def cSorted1 : List (Color × Nat) := cKey.map (fun c => (c, 1))

/-- Another valid outcome of the same nondeterministic steps on the same
input: the reversed enumeration. -/
def cSorted2 : List (Color × Nat) := cSorted1.reverse

theorem cKey_nodup : cKey.Nodup :=
  List.Nodup.map mkColor_injective (List.nodup_range 257)

theorem cKey_length : cKey.length = 257 := by
  unfold cKey
  rw [List.length_map, List.length_range]

theorem cPixelList : cFrame.pixelList = cKey := by
  show (List.range 1).flatMap (fun y => (List.range 257).map (fun x => mkColor x)) =
    (List.range 257).map mkColor
  rw [show List.range 1 = [0] from rfl]
  simp

theorem cRaw : rawPixels cInputs = cKey := by
  show (List.map (fun p => p.2.pixelList) [("f.png", cFrame)]).flatten = cKey
  simp only [List.map_cons, List.map_nil, List.flatten_cons, List.flatten_nil,
    List.append_nil]
  exact cPixelList

theorem cSampled : sampledPixels constScale cInputs = cKey := by
  rw [sampledPixels_of_matching, cRaw]
  intro p hp
  simp only [cInputs, List.mem_singleton] at hp
  subst hp
  exact ⟨rfl, rfl⟩

theorem cObs : observedColors constScale cInputs = cKey := by
  unfold observedColors
  rw [cSampled]
  exact List.dedup_eq_self.mpr cKey_nodup

theorem cEnumValid : EnumValid constScale cInputs cKey :=
  ⟨cKey_nodup, fun c => by rw [cObs]⟩

theorem cSortValid1 : SortValid cInputs cSorted1 :=
  sortValid_of_nodup_raw cRaw cKey_nodup

theorem cSortValid2 : SortValid cInputs cSorted2 := by
  apply sortValid_reverse cSortValid1
  intro p hp q hq
  obtain ⟨cp, _, hcp⟩ := List.mem_map.mp hp
  obtain ⟨cq, _, hcq⟩ := List.mem_map.mp hq
  rw [← hcp, ← hcq]

theorem cMapFst : cSorted1.map Prod.fst = cKey := by
  unfold cSorted1
  rw [List.map_map]
  exact List.map_id' cKey

theorem cPal1_head : (builtPalette cKey cSorted1)[0]? = some (mkColor 0) := by
  rw [builtPalette_large cSorted1 (by rw [cKey_length]; omega)]
  rw [List.getElem?_take_of_lt (by omega), cMapFst]
  unfold cKey
  rw [List.getElem?_map, List.getElem?_range (by omega)]
  rfl

theorem cPal2_head : (builtPalette cKey cSorted2)[0]? = some (mkColor 256) := by
  rw [builtPalette_large cSorted2 (by rw [cKey_length]; omega)]
  rw [List.getElem?_take_of_lt (by omega)]
  have hmf : cSorted2.map Prod.fst = cKey.reverse := by
    unfold cSorted2
    rw [List.map_reverse, cMapFst]
  rw [hmf, List.getElem?_reverse (by rw [cKey_length]; omega), cKey_length]
  unfold cKey
  rw [List.getElem?_map, List.getElem?_range (by omega)]
  rfl

/-! ## Run-shape lemmas for ConvertPNGsToGIF -/

theorem convert_nil (scale : ScaleFn) (keyOrder : List Color)
    (sortedColors : List (Color × Nat)) (outputFile : String) (delay : Int)
    (debug : Bool) :
    ConvertPNGsToGIF scale keyOrder sortedColors [] outputFile delay debug =
      ⟨false, [], 0, false, Except.error "no input files specified"⟩ := rfl

theorem convert_negDelay (scale : ScaleFn) (keyOrder : List Color)
    (sortedColors : List (Color × Nat)) (name0 : String) (f0 : Frame)
    (rest : List (String × Frame)) (outputFile : String) (delay : Int)
    (debug : Bool) (hd : delay < 0) :
    ConvertPNGsToGIF scale keyOrder sortedColors ((name0, f0) :: rest)
      outputFile delay debug =
      ⟨false, [], 0, false, Except.error "delay must be non-negative"⟩ := by
  rw [ConvertPNGsToGIF]
  rw [if_pos hd]

theorem convert_ok (scale : ScaleFn) (keyOrder : List Color)
    (sortedColors : List (Color × Nat)) (name0 : String) (f0 : Frame)
    (rest : List (String × Frame)) (outputFile : String) (delay : Int)
    (debug : Bool) (hd : 0 ≤ delay) :
    ConvertPNGsToGIF scale keyOrder sortedColors ((name0, f0) :: rest)
      outputFile delay debug =
    ⟨true,
      ((name0, f0) :: rest).enum.map (fun p =>
        ProgressMsg.mk p.2.1 p.1 ((name0, f0) :: rest).length "") ++
        [ProgressMsg.mk "Creating output GIF" ((name0, f0) :: rest).length
          ((name0, f0) :: rest).length outputFile],
      ((name0, f0) :: rest).length +
        (if 256 < (palette0 keyOrder).length
          then ((name0, f0) :: rest).length else 0) +
        ((name0, f0) :: rest).length,
      true,
      Except.ok ⟨((name0, f0) :: rest).map (fun p =>
          quantizeFrame (builtPalette keyOrder sortedColors)
            (normalizeFrame scale f0.width f0.height p.2)),
        List.replicate (((name0, f0) :: rest).map (fun p =>
          quantizeFrame (builtPalette keyOrder sortedColors)
            (normalizeFrame scale f0.width f0.height p.2))).length
          (delay.tdiv 10)⟩⟩ := by
  rw [ConvertPNGsToGIF]
  rw [if_neg (not_lt.mpr hd)]

/-- Whether a run returned successfully (no Go error value). -/
def resultOk : Except String GIF → Bool
  | Except.ok _ => true
  | Except.error _ => false

/-- Evaluation of a full run on the one-frame witness input: the palette is
the single observed color and the single pixel maps to index 0. -/
def wDoc : GIF := ⟨[⟨1, 1, [0], [wColor]⟩], [10]⟩

/-! ## Claims -/

/-- Claim C10: ConvertPNGsToGIF itself rejects an empty input file list
(lines 21-23): it returns an error immediately, before the progress UI is
started, before any file is read, before any progress event is emitted, and
before the output path is created. -/
theorem c10_empty_input (scale : ScaleFn) (keyOrder : List Color)
    (sortedColors : List (Color × Nat)) (outputFile : String) (delay : Int)
    (debug : Bool) :
    ConvertPNGsToGIF scale keyOrder sortedColors [] outputFile delay debug =
      ⟨false, [], 0, false, Except.error "no input files specified"⟩ :=
  convert_nil scale keyOrder sortedColors outputFile delay debug

/-- Claim C7: a negative delay makes ConvertPNGsToGIF return an error with
no progress UI, no file reads, no events and no output file creation; for a
nonnegative delay every stored frame duration is the truncated quotient
delay/10 (Int.tdiv is Go's truncating integer division). -/
theorem c7_delay (scale : ScaleFn) (keyOrder : List Color)
    (sortedColors : List (Color × Nat)) (inputs : List (String × Frame))
    (outputFile : String) (delay : Int) (debug : Bool) :
    (delay < 0 →
      (ConvertPNGsToGIF scale keyOrder sortedColors inputs outputFile delay
        debug).uiStarted = false ∧
      (ConvertPNGsToGIF scale keyOrder sortedColors inputs outputFile delay
        debug).events = [] ∧
      (ConvertPNGsToGIF scale keyOrder sortedColors inputs outputFile delay
        debug).filesRead = 0 ∧
      (ConvertPNGsToGIF scale keyOrder sortedColors inputs outputFile delay
        debug).outputCreated = false ∧
      ∃ msg, (ConvertPNGsToGIF scale keyOrder sortedColors inputs outputFile
        delay debug).result = Except.error msg) ∧
    (0 ≤ delay →
      ∀ doc, (ConvertPNGsToGIF scale keyOrder sortedColors inputs outputFile
          delay debug).result = Except.ok doc →
        ∀ d ∈ doc.delay, d = delay.tdiv 10) := by
  constructor
  · intro hneg
    cases inputs with
    | nil =>
      rw [convert_nil]
      exact ⟨rfl, rfl, rfl, rfl, _, rfl⟩
    | cons q tl =>
      obtain ⟨name0, f0⟩ := q
      rw [convert_negDelay scale keyOrder sortedColors name0 f0 tl outputFile
        delay debug hneg]
      exact ⟨rfl, rfl, rfl, rfl, _, rfl⟩
  · intro hpos doc hdoc
    cases inputs with
    | nil =>
      rw [convert_nil] at hdoc
      exact absurd hdoc (by simp)
    | cons q tl =>
      obtain ⟨name0, f0⟩ := q
      rw [convert_ok scale keyOrder sortedColors name0 f0 tl outputFile delay
        debug hpos] at hdoc
      simp only [Except.ok.injEq] at hdoc
      subst hdoc
      intro d hd
      exact List.eq_of_mem_replicate hd

/-- Claim C7 witness: with delay -1 the run emits nothing and creates no
output; with delay 100, every duration in the resulting document is 10. -/
theorem c7_witness :
    ((ConvertPNGsToGIF constScale wKey wSorted wInputs "out.gif" (-1)
        false).events = [] ∧
      (ConvertPNGsToGIF constScale wKey wSorted wInputs "out.gif" (-1)
        false).outputCreated = false) ∧
    (∀ d ∈ wDoc.delay, d = (100 : Int).tdiv 10) :=
  ⟨⟨((c7_delay constScale wKey wSorted wInputs "out.gif" (-1) false).1
      (by decide)).2.1,
    ((c7_delay constScale wKey wSorted wInputs "out.gif" (-1) false).1
      (by decide)).2.2.2.1⟩,
    (c7_delay constScale wKey wSorted wInputs "out.gif" 100 false).2
      (by decide) wDoc (by decide)⟩

/-- Claim C6: a successful conversion always produces one output frame per
input frame, each with exactly the first input frame's dimensions; a frame
already matching the reference dimensions is passed through unresampled; a
later-frame mismatch never causes rejection (the run still succeeds). -/
theorem c6_geometry (scale : ScaleFn) (keyOrder : List Color)
    (sortedColors : List (Color × Nat)) (name0 : String) (f0 : Frame)
    (rest : List (String × Frame)) (outputFile : String) (delay : Int)
    (debug : Bool) (hd : 0 ≤ delay) :
    (∃ doc, (ConvertPNGsToGIF scale keyOrder sortedColors ((name0, f0) :: rest)
        outputFile delay debug).result = Except.ok doc ∧
      doc.image.length = ((name0, f0) :: rest).length ∧
      ∀ P ∈ doc.image, P.width = f0.width ∧ P.height = f0.height) ∧
    (∀ f : Frame, f.width = f0.width → f.height = f0.height →
      normalizeFrame scale f0.width f0.height f = f) := by
  constructor
  · rw [convert_ok scale keyOrder sortedColors name0 f0 rest outputFile delay
      debug hd]
    refine ⟨_, rfl, ?_, ?_⟩
    · rw [List.length_map]
    · intro P hP
      obtain ⟨p, _, hPq⟩ := List.mem_map.mp hP
      subst hPq
      exact ⟨normalizeFrame_width scale f0.width f0.height p.2,
        normalizeFrame_height scale f0.width f0.height p.2⟩
  · intro f h1 h2
    exact normalizeFrame_of_dims scale h1 h2

/-- Claim C6 witness: a two-frame input whose second frame has different
dimensions (2×1 instead of 1×1) still converts successfully, and both output
frames have the first frame's 1×1 dimensions. -/
theorem c6_witness :
    (0 : Int) ≤ 100 ∧
    ∃ doc, (ConvertPNGsToGIF constScale gKey gSorted
        (("a.png", eFrame0) :: [("b.png", eFrame1)]) "out.gif" 100
        false).result = Except.ok doc ∧
      doc.image.length = (("a.png", eFrame0) :: [("b.png", eFrame1)]).length ∧
      ∀ P ∈ doc.image, P.width = eFrame0.width ∧ P.height = eFrame0.height :=
  ⟨by decide,
    (c6_geometry constScale gKey gSorted "a.png" eFrame0 [("b.png", eFrame1)]
      "out.gif" 100 false (by decide)).1⟩

/-- Claim C9 (amended): on a successful conversion the emitted progress
events are exactly one event per input frame during the sampling pass, in
frame order with processed counter 0..n-1, followed by one single final
event with processed = total = n emitted just before encoding — the
quantization pass emits no per-frame events, so there are n+1 events in
total, not one per frame in each of the two passes. -/
theorem c9_events (scale : ScaleFn) (keyOrder : List Color)
    (sortedColors : List (Color × Nat)) (name0 : String) (f0 : Frame)
    (rest : List (String × Frame)) (outputFile : String) (delay : Int)
    (debug : Bool) (hd : 0 ≤ delay) :
    (ConvertPNGsToGIF scale keyOrder sortedColors ((name0, f0) :: rest)
        outputFile delay debug).events =
      ((name0, f0) :: rest).enum.map (fun p =>
        ProgressMsg.mk p.2.1 p.1 ((name0, f0) :: rest).length "") ++
      [ProgressMsg.mk "Creating output GIF" ((name0, f0) :: rest).length
        ((name0, f0) :: rest).length outputFile] ∧
    (ConvertPNGsToGIF scale keyOrder sortedColors ((name0, f0) :: rest)
        outputFile delay debug).events.length =
      ((name0, f0) :: rest).length + 1 := by
  rw [convert_ok scale keyOrder sortedColors name0 f0 rest outputFile delay
    debug hd]
  refine ⟨rfl, ?_⟩
  show (List.map _ _ ++ [_]).length = _
  rw [List.length_append, List.length_map, List.enum_length]
  rfl

/-- Claim C9 witness: the one-frame witness run emits 1 + 1 = 2 events. -/
theorem c9_witness :
    (0 : Int) ≤ 100 ∧
    (ConvertPNGsToGIF constScale wKey wSorted (("a.png", wFrame) :: [])
      "out.gif" 100 false).events.length = (("a.png", wFrame) :: []).length + 1 :=
  ⟨by decide,
    (c9_events constScale wKey wSorted "a.png" wFrame [] "out.gif" 100 false
      (by decide)).2⟩

/-- Claim C9 fails as stated: a successful two-frame conversion emits 3
progress events (one per frame in the sampling pass plus a single final
event), not 2·2 = 4 as one-event-per-frame-per-pass would require — the
quantization pass emits none. -/
theorem c9_counterexample :
    EnumValid constScale gInputs gKey ∧ SortValid gInputs gSorted ∧
    resultOk (ConvertPNGsToGIF constScale gKey gSorted gInputs "out.gif" 100
      false).result = true ∧
    (ConvertPNGsToGIF constScale gKey gSorted gInputs "out.gif" 100
      false).events.length = 3 ∧
    ¬ ((ConvertPNGsToGIF constScale gKey gSorted gInputs "out.gif" 100
      false).events.length = 2 * gInputs.length) :=
  ⟨gEnumValid, gSortValid, by decide, by decide, by decide⟩

/-- Claim C1: when at least one pixel is sampled and at most 256 distinct
colors are observed across the normalized frames, the palette built by
ConvertPNGsToGIF is exactly the set of observed colors — every observed
color appears, nothing else does — and every frame of the output document
carries that palette. -/
theorem c1_palette_exact (scale : ScaleFn) (inputs : List (String × Frame))
    (keyOrder : List Color) (sortedColors : List (Color × Nat))
    (outputFile : String) (delay : Int) (debug : Bool)
    (hk : EnumValid scale inputs keyOrder)
    (hne : observedColors scale inputs ≠ [])
    (hle : (observedColors scale inputs).length ≤ 256) :
    (∀ c, c ∈ builtPalette keyOrder sortedColors ↔
      c ∈ observedColors scale inputs) ∧
    ∀ doc, (ConvertPNGsToGIF scale keyOrder sortedColors inputs outputFile
        delay debug).result = Except.ok doc →
      ∀ P ∈ doc.image, P.palette = builtPalette keyOrder sortedColors := by
  have hklen : keyOrder.length ≤ 256 := by rw [hk.length_eq]; exact hle
  have hkne : keyOrder ≠ [] := by
    obtain ⟨c, hc⟩ := List.exists_mem_of_ne_nil _ hne
    exact List.ne_nil_of_mem ((hk.2 c).mpr hc)
  constructor
  · intro c
    rw [builtPalette_small sortedColors hkne hklen]
    exact hk.2 c
  · intro doc hdoc P hP
    cases inputs with
    | nil =>
      rw [convert_nil] at hdoc
      exact absurd hdoc (by simp)
    | cons q tl =>
      obtain ⟨name0, f0⟩ := q
      by_cases hdel : delay < 0
      · rw [convert_negDelay scale keyOrder sortedColors name0 f0 tl outputFile
          delay debug hdel] at hdoc
        exact absurd hdoc (by simp)
      · rw [convert_ok scale keyOrder sortedColors name0 f0 tl outputFile delay
          debug (not_lt.mp hdel)] at hdoc
        simp only [Except.ok.injEq] at hdoc
        subst hdoc
        obtain ⟨p, _, hPq⟩ := List.mem_map.mp hP
        subst hPq
        rfl

/-- Claim C1 witness: the single-color one-frame input yields a palette
containing exactly that color. -/
theorem c1_witness :
    EnumValid constScale wInputs wKey ∧
    observedColors constScale wInputs ≠ [] ∧
    (observedColors constScale wInputs).length ≤ 256 ∧
    (wColor ∈ builtPalette wKey wSorted ↔
      wColor ∈ observedColors constScale wInputs) :=
  ⟨wEnumValid, by decide, by decide,
    (c1_palette_exact constScale wInputs wKey wSorted "out.gif" 100 false
      wEnumValid (by decide) (by decide)).1 wColor⟩

/-- A Go color.Color interface value as colorMap actually stores it
(line 39: map[color.Color]bool): the dynamic type together with its channel
data.  png.Decode yields color.NRGBA values for truecolor+alpha PNGs,
color.RGBA for truecolor without alpha — and for every CatmullRom-resized
frame, which is drawn into image.NewRGBA (line 70) — and color.Gray for
grayscale PNGs.  Two interface values are equal as map keys only when BOTH
the dynamic type and the value agree; the Color tuples used in the rest of
this file identify colors by channel data alone and therefore quotient this
distinction away. -/
inductive GoColor where
  | rgba (r g b a : Nat)
  | nrgba (r g b a : Nat)
  | gray (y : Nat)
deriving DecidableEq, Repr

/-- The exact RGBA channel tuple of an interface color value, via each
type's RGBA() method from Go image/color/color.go: RGBA widens each channel
(v | v<<8 = 257*v); NRGBA widens, premultiplies by alpha and divides by
0xff; Gray replicates the widened luma with full alpha. -/
def GoColor.rgba16 : GoColor → Nat × Nat × Nat × Nat
  | .rgba r g b a => (257 * r, 257 * g, 257 * b, 257 * a)
  | .nrgba r g b a =>
      (257 * r * a / 255, 257 * g * a / 255, 257 * b * a / 255, 257 * a)
  | .gray y => (257 * y, 257 * y, 257 * y, 65535)

/-- The key set of colorMap at the code's real granularity: the distinct
color.Color interface values among the sampled pixels (first-insertion
order; any enumeration contains the same keys).  Every one of these keys is
appended to the palette in the ≤256 branch (lines 84-87). -/
def colorMapKeys (pixels : List GoColor) : List GoColor := pixels.dedup

/-- The two-pixel failing corpus for claim C8: the same opaque red sampled
once from a truecolor+alpha frame (a color.NRGBA value) and once from a
no-alpha or resized frame (a color.RGBA value). -/
def c8Pixels : List GoColor :=
  [GoColor.nrgba 255 0 0 255, GoColor.rgba 255 0 0 255]

/-- Claim C8 fails on the code (the claim itself matches the spec's stated
invariant): colorMap is keyed by color.Color interface values, so on the
failing corpus both sampled values are distinct keys, both survive into the
palette (the key set has two entries), yet their exact RGBA channel tuples
are equal — the palette contains two entries that are duplicates under the
claim's identification of colors by their 4-channel value rather than their
in-memory representation. -/
theorem c8_duplicate_tuples :
    (colorMapKeys c8Pixels).length = 2 ∧
    GoColor.nrgba 255 0 0 255 ≠ GoColor.rgba 255 0 0 255 ∧
    (GoColor.nrgba 255 0 0 255).rgba16 = (GoColor.rgba 255 0 0 255).rgba16 ∧
    ¬ ((colorMapKeys c8Pixels).map GoColor.rgba16).Nodup := by
  refine ⟨by decide, by decide, by decide, ?_⟩
  decide

/-- Claim C5: when at most 256 distinct colors are observed, quantization is
a lossless remap.  First conjunct: a color present verbatim in the palette
maps to an index that holds exactly that color.  Second conjunct: in the
output document, every pixel's palette entry at its assigned index equals
the normalized source frame's color at that position. -/
theorem c5_lossless (scale : ScaleFn) (inputs : List (String × Frame))
    (keyOrder : List Color) (sortedColors : List (Color × Nat))
    (outputFile : String) (delay : Int) (debug : Bool)
    (hk : EnumValid scale inputs keyOrder)
    (hle : (observedColors scale inputs).length ≤ 256) :
    (∀ c ∈ builtPalette keyOrder sortedColors,
      (builtPalette keyOrder sortedColors)[palIndex
        (builtPalette keyOrder sortedColors) c]? = some c) ∧
    ∀ doc, (ConvertPNGsToGIF scale keyOrder sortedColors inputs outputFile
        delay debug).result = Except.ok doc →
      ∀ (i : Nat) (p : String × Frame), inputs[i]? = some p →
      ∀ (P : Paletted), doc.image[i]? = some P →
      ∀ (k : Nat) (c : Color),
        (normalizeFrame scale (refDims inputs).1 (refDims inputs).2
          p.2).pixelList[k]? = some c →
        P.pix[k]? = some (palIndex (builtPalette keyOrder sortedColors) c) ∧
        (builtPalette keyOrder sortedColors)[palIndex
          (builtPalette keyOrder sortedColors) c]? = some c := by
  constructor
  · intro c hc
    rw [← List.get?_eq_getElem?]
    exact palIndex_getEq hc
  · intro doc hdoc i p hi P hP k c hc
    cases inputs with
    | nil =>
      rw [convert_nil] at hdoc
      exact absurd hdoc (by simp)
    | cons q tl =>
      obtain ⟨name0, f0⟩ := q
      by_cases hdel : delay < 0
      · rw [convert_negDelay scale keyOrder sortedColors name0 f0 tl outputFile
          delay debug hdel] at hdoc
        exact absurd hdoc (by simp)
      · rw [convert_ok scale keyOrder sortedColors name0 f0 tl outputFile delay
          debug (not_lt.mp hdel)] at hdoc
        simp only [Except.ok.injEq] at hdoc
        subst hdoc
        simp only [List.getElem?_map, hi, Option.map_some'] at hP
        have hPq : P = quantizeFrame (builtPalette keyOrder sortedColors)
            (normalizeFrame scale f0.width f0.height p.2) := by
          exact (Option.some.injEq _ _).mp hP |>.symm
        subst hPq
        have hc' : (normalizeFrame scale f0.width f0.height
            p.2).pixelList[k]? = some c := hc
        have hcpal : c ∈ builtPalette keyOrder sortedColors := by
          have hcpix : c ∈ (normalizeFrame scale f0.width f0.height
              p.2).pixelList := List.mem_iff_getElem?.mpr ⟨k, hc'⟩
          have hcsamp : c ∈ sampledPixels scale ((name0, f0) :: tl) := by
            apply List.mem_flatten.mpr
            refine ⟨(normalizeFrame scale f0.width f0.height p.2).pixelList,
              ?_, hcpix⟩
            apply List.mem_map.mpr
            exact ⟨p, List.getElem?_mem hi, rfl⟩
          have hcobs : c ∈ observedColors scale ((name0, f0) :: tl) :=
            List.mem_dedup.mpr hcsamp
          have hckey : c ∈ keyOrder := (hk.2 c).mpr hcobs
          have hklen : keyOrder.length ≤ 256 := by rw [hk.length_eq]; exact hle
          rw [builtPalette_small sortedColors (List.ne_nil_of_mem hckey) hklen]
          exact hckey
        constructor
        · show (List.map _ _)[k]? = _
          rw [List.getElem?_map, hc', Option.map_some']
        · rw [← List.get?_eq_getElem?]
          exact palIndex_getEq hcpal

/-- Claim C5 witness: on the one-frame single-color input, the single pixel
is assigned an index whose palette entry is that very color. -/
theorem c5_witness :
    (observedColors constScale wInputs).length ≤ 256 ∧
    (builtPalette wKey wSorted)[palIndex (builtPalette wKey wSorted)
      wColor]? = some wColor :=
  ⟨by decide,
    (c5_lossless constScale wInputs wKey wSorted "out.gif" 100 false
      wEnumValid (by decide)).1 wColor (by decide)⟩

/-- Claim C2 fails as stated: the sort at lines 131-133 compares only the
counts, with no secondary key, and iterates a Go map; on a 257-color input
where every count is 1, both `cSorted1` and its reverse are outcomes the
code can produce on the same bytes, and they lead to different palettes —
they even disagree about which 256 colors survive. -/
theorem c2_counterexample :
    EnumValid constScale cInputs cKey ∧
    SortValid cInputs cSorted1 ∧ SortValid cInputs cSorted2 ∧
    builtPalette cKey cSorted1 ≠ builtPalette cKey cSorted2 :=
  ⟨cEnumValid, cSortValid1, cSortValid2, fun h => by
    have h0 : (builtPalette cKey cSorted1)[0]? =
        (builtPalette cKey cSorted2)[0]? := congrArg (fun l => l[0]?) h
    rw [cPal1_head, cPal2_head] at h0
    exact absurd h0 (by decide)⟩

/-- Claim C2 (amended): when more than 256 distinct colors are observed the
palette is the 256-entry prefix of the count-sorted frequency list: it has
min 256 (number of distinct frequency-map entries) entries, no duplicates,
all drawn from the original frames' pixels, and every color it excludes has
an occurrence count no larger than that of every color it keeps.  The order
of entries with equal counts — and, at a count tie across the 256-entry
boundary, even the retained set — is NOT fixed by the input, since the sort
has no secondary key (see the counterexample). -/
theorem c2_amended (scale : ScaleFn) (inputs : List (String × Frame))
    (keyOrder : List Color) (sortedColors : List (Color × Nat))
    (hk : EnumValid scale inputs keyOrder)
    (hs : SortValid inputs sortedColors)
    (hgt : 256 < (observedColors scale inputs).length) :
    (builtPalette keyOrder sortedColors).Nodup ∧
    (builtPalette keyOrder sortedColors).length = min 256 sortedColors.length ∧
    sortedColors.length = ((rawPixels inputs).dedup).length ∧
    (256 ≤ sortedColors.length →
      (builtPalette keyOrder sortedColors).length = 256) ∧
    (∀ c ∈ builtPalette keyOrder sortedColors, c ∈ rawPixels inputs) ∧
    ∀ c ∈ builtPalette keyOrder sortedColors, ∀ d, d ∈ rawPixels inputs →
      d ∉ builtPalette keyOrder sortedColors →
      colorFreq inputs d ≤ colorFreq inputs c := by
  have hklen : 256 < keyOrder.length := by rw [hk.length_eq]; exact hgt
  rw [builtPalette_large sortedColors hklen]
  obtain ⟨hnd, hmem, hpw⟩ := hs
  refine ⟨?_, ?_, ?_, ?_, ?_, ?_⟩
  · exact List.Nodup.sublist (List.take_sublist 256 _) hnd
  · rw [List.length_take, List.length_map]
  · have hpermfst : (sortedColors.map Prod.fst).Perm
        ((rawPixels inputs).dedup) := by
      apply (List.perm_ext_iff_of_nodup hnd (List.nodup_dedup _)).mpr
      intro c
      rw [List.mem_dedup]
      constructor
      · intro hcm
        obtain ⟨pc, hpc, hpcc⟩ := List.mem_map.mp hcm
        rw [← hpcc]
        exact ((hmem pc).mp hpc).1
      · intro hcr
        exact List.mem_map.mpr
          ⟨(c, colorFreq inputs c), (hmem _).mpr ⟨hcr, rfl⟩, rfl⟩
    have hleq := hpermfst.length_eq
    rw [List.length_map] at hleq
    exact hleq
  · intro h256
    rw [List.length_take, List.length_map]
    omega
  · intro c hc
    obtain ⟨pc, hpc, hpcc⟩ :=
      List.mem_map.mp (List.take_subset 256 _ hc)
    rw [← hpcc]
    exact ((hmem pc).mp hpc).1
  · intro c hc d hd hdnot
    rw [← List.map_take] at hc hdnot
    obtain ⟨pc, hpcTake, hpcc⟩ := List.mem_map.mp hc
    have hpair : (d, colorFreq inputs d) ∈ sortedColors :=
      (hmem (d, colorFreq inputs d)).mpr ⟨hd, rfl⟩
    have hsplitPair : (d, colorFreq inputs d) ∈
        sortedColors.take 256 ++ sortedColors.drop 256 := by
      rw [List.take_append_drop]
      exact hpair
    have hdrop : (d, colorFreq inputs d) ∈ sortedColors.drop 256 := by
      rcases List.mem_append.mp hsplitPair with hIn | hIn
      · exact absurd (List.mem_map.mpr ⟨_, hIn, rfl⟩) hdnot
      · exact hIn
    have hpwSplit : List.Pairwise (fun a b : Color × Nat => b.2 ≤ a.2)
        (sortedColors.take 256 ++ sortedColors.drop 256) := by
      rw [List.take_append_drop]
      exact hpw
    have hR := (List.pairwise_append.mp hpwSplit).2.2 pc hpcTake
      (d, colorFreq inputs d) hdrop
    have hpc2 : pc.2 = colorFreq inputs pc.1 :=
      ((hmem pc).mp (List.take_subset 256 _ hpcTake)).2
    rw [hpc2, hpcc] at hR
    exact hR

/-- Claim C2 witness for the amended statement: on the 257-color input with
the ascending sorted list, the palette has exactly 256 entries. -/
theorem c2_witness :
    EnumValid constScale cInputs cKey ∧ SortValid cInputs cSorted1 ∧
    256 < (observedColors constScale cInputs).length ∧
    (builtPalette cKey cSorted1).length = 256 :=
  ⟨cEnumValid, cSortValid1, by rw [cObs, cKey_length]; omega,
    (c2_amended constScale cInputs cKey cSorted1 cEnumValid cSortValid1
      (by rw [cObs, cKey_length]; omega)).2.2.2.1
      (by unfold cSorted1; simp [cKey_length])⟩

/-- Claim C3 fails as stated: two runs on the byte-identical one-frame
two-color input, each using a colorMap iteration order Go may legitimately
produce, return different results — the palettes come out in different
orders, so index assignments and document bytes differ. -/
theorem c3_counterexample :
    EnumValid constScale dInputs dKey1 ∧ EnumValid constScale dInputs dKey2 ∧
    SortValid dInputs dSorted ∧
    ConvertPNGsToGIF constScale dKey1 dSorted dInputs "out.gif" 100 false ≠
      ConvertPNGsToGIF constScale dKey2 dSorted dInputs "out.gif" 100 false :=
  ⟨dEnumValid1, dEnumValid2, dSortValid, by decide⟩

/-- Claim C3 (amended): across two runs on identical input, the UI start,
the progress event sequence, the number of file reads, the output-creation
flag, the per-frame delays and the frame count are all equal, and — when at
most 256 distinct colors are observed — the two palettes are permutations of
each other (the same set); the palette order, and hence the per-pixel index
assignments and output bytes, are not guaranteed equal (see the
counterexample). -/
theorem c3_amended (scale : ScaleFn) (inputs : List (String × Frame))
    (k1 k2 : List Color) (s1 s2 : List (Color × Nat)) (outputFile : String)
    (delay : Int) (debug : Bool)
    (h1 : EnumValid scale inputs k1) (h2 : EnumValid scale inputs k2) :
    ((ConvertPNGsToGIF scale k1 s1 inputs outputFile delay debug).uiStarted =
      (ConvertPNGsToGIF scale k2 s2 inputs outputFile delay debug).uiStarted ∧
     (ConvertPNGsToGIF scale k1 s1 inputs outputFile delay debug).events =
      (ConvertPNGsToGIF scale k2 s2 inputs outputFile delay debug).events ∧
     (ConvertPNGsToGIF scale k1 s1 inputs outputFile delay debug).filesRead =
      (ConvertPNGsToGIF scale k2 s2 inputs outputFile delay debug).filesRead ∧
     (ConvertPNGsToGIF scale k1 s1 inputs outputFile delay
        debug).outputCreated =
      (ConvertPNGsToGIF scale k2 s2 inputs outputFile delay
        debug).outputCreated) ∧
    (∀ d1 d2,
      (ConvertPNGsToGIF scale k1 s1 inputs outputFile delay debug).result =
        Except.ok d1 →
      (ConvertPNGsToGIF scale k2 s2 inputs outputFile delay debug).result =
        Except.ok d2 →
      d1.delay = d2.delay ∧ d1.image.length = d2.image.length) ∧
    ((observedColors scale inputs).length ≤ 256 →
      (builtPalette k1 s1).Perm (builtPalette k2 s2)) := by
  have hlen12 : k1.length = k2.length := by rw [h1.length_eq, h2.length_eq]
  have hnil12 : k1 = [] → k2 = [] := by
    intro hk1
    have hobs : observedColors scale inputs = [] := by
      have hp := h1.perm_observed.symm
      rw [hk1] at hp
      exact hp.eq_nil
    have hp := h2.perm_observed
    rw [hobs] at hp
    exact hp.eq_nil
  have hnil21 : k2 = [] → k1 = [] := by
    intro hk2
    have hobs : observedColors scale inputs = [] := by
      have hp := h2.perm_observed.symm
      rw [hk2] at hp
      exact hp.eq_nil
    have hp := h1.perm_observed
    rw [hobs] at hp
    exact hp.eq_nil
  have hp0 : (palette0 k1).length = (palette0 k2).length := by
    by_cases hk1 : k1 = []
    · rw [hk1, hnil12 hk1]
    · have hk2 : k2 ≠ [] := fun h => hk1 (hnil21 h)
      rw [palette0_of_ne_nil hk1, palette0_of_ne_nil hk2]
      exact hlen12
  refine ⟨?_, ?_, ?_⟩
  · cases inputs with
    | nil =>
      rw [convert_nil, convert_nil]
      exact ⟨rfl, rfl, rfl, rfl⟩
    | cons q tl =>
      obtain ⟨name0, f0⟩ := q
      by_cases hdel : delay < 0
      · rw [convert_negDelay scale k1 s1 name0 f0 tl outputFile delay debug
          hdel, convert_negDelay scale k2 s2 name0 f0 tl outputFile delay
          debug hdel]
        exact ⟨rfl, rfl, rfl, rfl⟩
      · rw [convert_ok scale k1 s1 name0 f0 tl outputFile delay debug
          (not_lt.mp hdel), convert_ok scale k2 s2 name0 f0 tl outputFile
          delay debug (not_lt.mp hdel)]
        refine ⟨rfl, rfl, ?_, rfl⟩
        rw [hp0]
  · intro d1 d2 hd1 hd2
    cases inputs with
    | nil =>
      rw [convert_nil] at hd1
      exact absurd hd1 (by simp)
    | cons q tl =>
      obtain ⟨name0, f0⟩ := q
      by_cases hdel : delay < 0
      · rw [convert_negDelay scale k1 s1 name0 f0 tl outputFile delay debug
          hdel] at hd1
        exact absurd hd1 (by simp)
      · rw [convert_ok scale k1 s1 name0 f0 tl outputFile delay debug
          (not_lt.mp hdel)] at hd1
        rw [convert_ok scale k2 s2 name0 f0 tl outputFile delay debug
          (not_lt.mp hdel)] at hd2
        simp only [Except.ok.injEq] at hd1 hd2
        subst hd1
        subst hd2
        constructor
        · show List.replicate _ _ = List.replicate _ _
          rw [List.length_map, List.length_map]
        · show (List.map _ _).length = (List.map _ _).length
          rw [List.length_map, List.length_map]
  · intro hle
    by_cases hk1 : k1 = []
    · rw [hk1, hnil12 hk1]
      exact List.Perm.refl _
    · have hk2 : k2 ≠ [] := fun h => hk1 (hnil21 h)
      rw [builtPalette_small s1 hk1 (by rw [h1.length_eq]; exact hle),
        builtPalette_small s2 hk2 (by rw [h2.length_eq]; exact hle)]
      exact h1.perm_observed.trans h2.perm_observed.symm

/-- Claim C3 witness for the amended statement: the two valid runs on the
two-color input emit the same events and their palettes are permutations of
each other. -/
theorem c3_witness :
    EnumValid constScale dInputs dKey1 ∧ EnumValid constScale dInputs dKey2 ∧
    (ConvertPNGsToGIF constScale dKey1 dSorted dInputs "out.gif" 100
        false).events =
      (ConvertPNGsToGIF constScale dKey2 dSorted dInputs "out.gif" 100
        false).events ∧
    (builtPalette dKey1 dSorted).Perm (builtPalette dKey2 dSorted) :=
  ⟨dEnumValid1, dEnumValid2,
    (c3_amended constScale dInputs dKey1 dKey2 dSorted dSorted "out.gif" 100
      false dEnumValid1 dEnumValid2).1.2.1,
    (c3_amended constScale dInputs dKey1 dKey2 dSorted dSorted "out.gif" 100
      false dEnumValid1 dEnumValid2).2.2 (by decide)⟩

/-- Claim C4 fails as stated: the frequency-counting pass (lines 101-120)
re-decodes every file and iterates its ORIGINAL bounds without resizing, so
on an input whose second frame (2×1) does not match the reference (1×1),
color eB is counted twice from the original frame although it never occurs
among the normalized frames' pixels. -/
theorem c4_counterexample :
    colorFreq eInputs eB = 2 ∧
    (sampledPixels constScale eInputs).count eB = 0 ∧
    ¬ (colorFreq eInputs eB = (sampledPixels constScale eInputs).count eB) :=
  ⟨by decide, by decide, by decide⟩

/-- Claim C4 (amended): the occurrence counts used for frequency ranking are
accumulated over the pixels of the ORIGINAL decoded frames, not the
normalized ones; the two notions agree exactly when every input frame
already has the reference (first frame's) dimensions. -/
theorem c4_amended (scale : ScaleFn) (inputs : List (String × Frame))
    (h : ∀ p ∈ inputs, p.2.width = (refDims inputs).1 ∧
      p.2.height = (refDims inputs).2) :
    ∀ c, colorFreq inputs c = (sampledPixels scale inputs).count c := by
  intro c
  unfold colorFreq
  rw [sampledPixels_of_matching h]

/-- Claim C4 witness: on the one-frame input (dimensions trivially match the
reference) the frequency count agrees with the normalized-frame count. -/
theorem c4_witness :
    colorFreq wInputs wColor =
      (sampledPixels constScale wInputs).count wColor :=
  c4_amended constScale wInputs
    (by
      intro p hp
      simp only [wInputs, List.mem_singleton] at hp
      subst hp
      exact ⟨rfl, rfl⟩)
    wColor

end GoToGif
